import Mathlib

/-!
Verification of the mirage_net peer liveness/health model and the
load-aware selection-and-forwarding path.

The development shallowly embeds the Python sources:
* `src/gateway/app/load_balancer.py` — the `PeerHealth` record, the health
  table, peer scoring/selection, performance feedback and the fetch/retry
  loop;
* `src/controller/app/peer_manager.py`, `database.py`, `main.py` — the
  Redis-backed peer directory, liveness filtering and the heartbeat
  endpoint;
* `src/gateway/app/proxy_server.py` — the request handler that is live in
  the source (the forwarding path in that file is commented out).

Machine floats are modelled as exact rationals; timestamps are rationals;
Python dicts are modelled as insertion-ordered association lists, matching
the iteration-order semantics the source relies on.
-/

namespace Mirage

/-- Association-list read, first match wins; models Python lookups `dict[k]` and
`dict.get(k)` (keys are unique by construction of `assocPut`). -/
def assocGet {α : Type} (k : String) : List (String × α) → Option α
  | [] => none
  | (k0, v) :: rest => if k0 = k then some v else assocGet k rest

/-- Association-list write; models Python `dict[k] = v` (and Redis `SET`):
an existing key is updated in place, a new key is appended at the end,
which matches the insertion-ordered dict semantics of Python. -/
def assocPut {α : Type} (k : String) (v : α) : List (String × α) → List (String × α)
  | [] => [(k, v)]
  | (k0, v0) :: rest => if k0 = k then (k, v) :: rest else (k0, v0) :: assocPut k v rest

/-! ## Gateway load balancer (`src/gateway/app/load_balancer.py`) -/

/-- The `PeerHealth` dataclass of `load_balancer.py` (lines 12–20). -/
structure PeerHealth where
  peer_id : String
  ip_address : String
  last_seen : ℚ
  response_time : ℚ
  active_connections : ℤ
  max_connections : ℤ
  success_rate : ℚ
  deriving DecidableEq, Repr

/-- The in-process health table of the gateway `self.peer_health`
(a Python dict keyed by peer id). -/
abbrev HealthTable := List (String × PeerHealth)

/-- Seed values used when a peer first appears in a directory poll
(`_fetch_peer_health`, lines 79–87). -/
def seedHealth (pid ip : String) (now : ℚ) : PeerHealth :=
  { peer_id := pid
    ip_address := ip
    last_seen := now
    response_time := 100
    active_connections := 0
    max_connections := 50
    success_rate := 0.95 }

/-- Selection filter of `get_best_peer` (lines 144–148):
`active_connections < max_connections and success_rate > 0.7`. -/
def isEligible (p : PeerHealth) : Bool :=
  decide (p.active_connections < p.max_connections) && decide ((0.7 : ℚ) < p.success_rate)

/-- The `load_factor` of `get_best_peer` (line 157). -/
def loadFactor (p : PeerHealth) : ℚ :=
  (p.active_connections : ℚ) / (p.max_connections : ℚ)

/-- The `performance_score` of `get_best_peer` (line 160). -/
def performanceScore (p : PeerHealth) : ℚ :=
  (1000 / p.response_time) * p.success_rate

/-- The `total_score` of `get_best_peer` (line 163). -/
def totalScore (p : PeerHealth) : ℚ :=
  0.3 * (1 - loadFactor p) + 0.7 * performanceScore p

/-- One scored candidate, as built on line 165: `(total_score, peer)`. -/
abbrev Scored := ℚ × PeerHealth

/-- Insertion step of a stable descending sort on the score component.
A new element moves ahead of strictly smaller scores only, so elements
with equal scores keep their original relative order — exactly the
guarantee of the stable Python `list.sort(key=..., reverse=True)`. -/
def insertDesc (x : Scored) : List Scored → List Scored
  | [] => [x]
  | y :: ys => if y.1 < x.1 then x :: y :: ys else y :: insertDesc x ys

/-- Stable descending sort by score, modelling
`scored_peers.sort(key=lambda x: x[0], reverse=True)` (line 168). -/
def sortScoredDesc (l : List Scored) : List Scored :=
  l.foldl (fun acc x => insertDesc x acc) []

/-- Helper for reasoning about the sorted list: the element at index 0
after the stable descending sort is the leftmost entry attaining the
maximal score, expressed as a fold that replaces the current champion
only on a strictly greater score. -/
def pickFirstMax (b : Scored) (l : List Scored) : Scored :=
  l.foldl (fun c x => if c.1 < x.1 then x else c) b

/-- Selection function `get_best_peer` (lines 142–169): filter eligible peers, score them,
stable-sort descending by score and take the head.  The argument is the
list of `self.peer_health.values()` in dict insertion order. -/
def get_best_peer (peers : List PeerHealth) : Option PeerHealth :=
  let available_peers := peers.filter isEligible
  if available_peers.isEmpty then
    none
  else
    let scored_peers := available_peers.map (fun p => (totalScore p, p))
    ((sortScoredDesc scored_peers).head?).map Prod.snd

/-- Body of `update_peer_performance` (lines 114–132) for a tracked peer:
EMA on response time, `+0.01` capped at `1.0` / `-0.05` floored at `0.0`
on the success rate, and an immediate connection-count increment on
success.  The source applies these as sequential field assignments on the
same record; the fields are independent, so one record update is equal. -/
def updateHealth (h : PeerHealth) (response_time : ℚ) (success : Bool) : PeerHealth :=
  { h with
    response_time := 0.7 * h.response_time + 0.3 * response_time
    success_rate :=
      if success then min 1.0 (h.success_rate + 0.01)
      else max 0.0 (h.success_rate - 0.05)
    active_connections :=
      if success then h.active_connections + 1 else h.active_connections }

/-- Table-level `update_peer_performance`: a no-op when the peer id is
untracked (the membership guard on line 116). -/
def update_peer_performance (t : HealthTable) (pid : String) (response_time : ℚ)
    (success : Bool) : HealthTable :=
  match assocGet pid t with
  | none => t
  | some h => assocPut pid (updateHealth h response_time success) t

/-- Effect of `_decrement_connection_count` (lines 134–140) on one record:
`max(0, active_connections - 1)`. -/
def decrementConnection (h : PeerHealth) : PeerHealth :=
  { h with active_connections := max 0 (h.active_connections - 1) }

/-- Table-level `_decrement_connection_count`: a no-op when the peer id
is untracked. -/
def decrement_connection_count (t : HealthTable) (pid : String) : HealthTable :=
  match assocGet pid t with
  | none => t
  | some h => assocPut pid (decrementConnection h) t

/-- One peer entry of the controller response for `/api/v1/peer/list`, as
consumed by `_fetch_peer_health` (lines 75–81): `peer['id']`, `peer['ip']`. -/
structure PollPeer where
  id : String
  ip : String
  deriving DecidableEq, Repr

/-- Per-peer step of the successful-poll branch of `_fetch_peer_health`
(lines 75–90): seed an unseen peer, otherwise touch `last_seen` only. -/
def pollStep (now : ℚ) (t : HealthTable) (p : PollPeer) : HealthTable :=
  match assocGet p.id t with
  | none => assocPut p.id (seedHealth p.id p.ip now) t
  | some h => assocPut p.id { h with last_seen := now } t

/-- Successful-poll branch of `_fetch_peer_health` (lines 75–99): process
every returned peer, then drop tracked peers whose `last_seen` is older
than the 300 s staleness window (`health.last_seen < time.time() - 300`). -/
def applyPoll (t : HealthTable) (now : ℚ) (peers : List PollPeer) : HealthTable :=
  let t1 := peers.foldl (pollStep now) t
  t1.filter (fun kv => decide (now - 300 ≤ kv.2.last_seen))

/-- Observable outcome of one fetch attempt in `_fetch_peer_health`:
a 200 response carrying a peer list, a non-200 response (the `else`
branch of line 103), or a raised exception (network error / timeout). -/
inductive FetchOutcome where
  | ok (peers : List PollPeer)
  | httpStatus (code : ℕ)
  | exc
  deriving DecidableEq, Repr

/-- Result of one `_fetch_peer_health` call: the health table afterwards,
the list of sleep delays (seconds) taken between attempts, and how many
attempts were made. -/
structure FetchResult where
  table : HealthTable
  delays : List ℕ
  attempts : ℕ
  deriving DecidableEq, Repr

/-- The constant `max_retries = 5` of `_fetch_peer_health` (line 59). -/
def maxRetries : ℕ := 5

/-- The constant `retry_delay = 2` seconds of `_fetch_peer_health` (line 60). -/
def retryDelay : ℕ := 2

/-- The retry loop of `_fetch_peer_health` (lines 62–111), driven by the
outcome of each attempt (`oc n` is what attempt number `n`, zero-based,
observes).  A 200 response applies the poll and returns; a non-200
response retries immediately with no sleep; an exception sleeps
`retry_delay * (attempt + 1)` seconds unless it was the last attempt.
`fuel` is the number of loop iterations left (`maxRetries - attempt`). -/
def fetchAux (oc : ℕ → FetchOutcome) (now : ℚ) : ℕ → ℕ → HealthTable → FetchResult
  | 0, _, t => ⟨t, [], 0⟩
  | fuel + 1, attempt, t =>
    match oc attempt with
    | FetchOutcome.ok peers => ⟨applyPoll t now peers, [], 1⟩
    | FetchOutcome.httpStatus _ =>
      let r := fetchAux oc now fuel (attempt + 1) t
      ⟨r.table, r.delays, r.attempts + 1⟩
    | FetchOutcome.exc =>
      if attempt < maxRetries - 1 then
        let r := fetchAux oc now fuel (attempt + 1) t
        ⟨r.table, retryDelay * (attempt + 1) :: r.delays, r.attempts + 1⟩
      else
        ⟨t, [], 1⟩

/-- Entry point `_fetch_peer_health` (lines 57–111): run the retry loop from attempt 0
with a full retry budget. -/
def fetch_peer_health (oc : ℕ → FetchOutcome) (now : ℚ) (t : HealthTable) : FetchResult :=
  fetchAux oc now maxRetries 0 t

/-! ## Controller peer directory
(`src/controller/app/database.py`, `peer_manager.py`, `main.py`) -/

/-- Value of the `last_seen` field of a stored record, as consumed by
`_is_peer_online` (`peer_manager.py`, line 50): the field can parse to a
timestamp; be missing altogether (`peer["last_seen"]` raises `KeyError`);
hold a string that `datetime.fromisoformat` rejects (`ValueError`); or
hold a present non-string JSON value such as a number or null, on which
`datetime.fromisoformat` raises `TypeError` — an exception the `except`
clause of line 52 does not catch. -/
inductive LastSeenField where
  | parsed (t : ℚ)
  | absent
  | badString
  | nonString
  deriving DecidableEq, Repr

/-- A stored peer record, the JSON dict built by `register_peer` in
`main.py` (lines 32–38); `last_seen` carries the four-way case split of
`LastSeenField`. -/
structure PeerRecord where
  id : String
  ip : String
  capabilities : List (String × String)
  last_seen : LastSeenField
  status : String
  deriving DecidableEq, Repr

/-- One Redis value: the stored JSON blob (`none` when the blob does not
parse back into a record, making `get_key` return `None`) together with
its absolute expiry time, if any. -/
structure StoreEntry where
  value : Option PeerRecord
  expireAt : Option ℚ
  deriving DecidableEq, Repr

/-- The Redis keyspace, keyed by full key strings such as `peer:<id>`. -/
abbrev RedisStore := List (String × StoreEntry)

/-- Liveness of a stored entry at time `now` with respect to its TTL. -/
def entryLive (now : ℚ) (e : StoreEntry) : Bool :=
  match e.expireAt with
  | none => true
  | some x => decide (now < x)

/-- Store write `RedisDB.set_key` (`database.py`, lines 11–20): serialize and store
with an optional TTL; returns the success flag (the store accepts the
write in this model — backend failure is not needed by any claim). -/
def set_key (db : RedisStore) (k : String) (v : PeerRecord) (expire : Option ℚ)
    (now : ℚ) : Bool × RedisStore :=
  (true, assocPut k { value := some v, expireAt := expire.map (fun e => now + e) } db)

/-- Store read `RedisDB.get_key` (`database.py`, lines 22–28): an absent or expired
key, or an unparsable blob, all come back as `None`. -/
def get_key (db : RedisStore) (now : ℚ) (k : String) : Option PeerRecord :=
  match assocGet k db with
  | none => none
  | some e => if entryLive now e then e.value else none

/-- Key scan `RedisDB.get_all_keys` with pattern `peer:*` (`database.py`, lines 37–42): every
key of the store, in keyspace order (the store holds only peer keys). -/
def get_all_keys (db : RedisStore) : List String :=
  db.map Prod.fst

/-- Key naming of `peer_manager.py`: `f"peer:{peer_id}"`. -/
def peerKey (pid : String) : String :=
  "peer:" ++ pid

/-- Registration `PeerManager.register_peer` (`peer_manager.py`, lines 16–23): store
the record under `peer:<id>` with TTL `2 * peer_timeout`. -/
def register_peer (db : RedisStore) (now timeout : ℚ) (info : PeerRecord) :
    Bool × RedisStore :=
  set_key db (peerKey info.id) info (some (2 * timeout)) now

/-- Record read `PeerManager.get_peer` (`peer_manager.py`, lines 25–26). -/
def get_peer (db : RedisStore) (now : ℚ) (pid : String) : Option PeerRecord :=
  get_key db now (peerKey pid)

/-- Heartbeat renewal `PeerManager.update_peer_heartbeat` (`peer_manager.py`, lines 39–46):
read the record; if absent return `False`, otherwise rewrite it with
`last_seen = now` and a fresh `2 * peer_timeout` TTL. -/
def update_peer_heartbeat (db : RedisStore) (now timeout : ℚ) (pid : String) :
    Bool × RedisStore :=
  match get_peer db now pid with
  | none => (false, db)
  | some p =>
    set_key db (peerKey pid) { p with last_seen := LastSeenField.parsed now }
      (some (2 * timeout)) now

/-- Liveness check `PeerManager._is_peer_online` (`peer_manager.py`, lines 48–53):
`(utcnow - last_seen) < timedelta(seconds=peer_timeout)`.  The `except`
clause catches only `ValueError` and `KeyError`, so a missing field or a
rejected string yields `False`, while a present non-string `last_seen`
makes `datetime.fromisoformat` raise `TypeError`, which escapes the
function — modelled as `Except.error ()`. -/
def isPeerOnline (now timeout : ℚ) (p : PeerRecord) : Except Unit Bool :=
  match p.last_seen with
  | LastSeenField.parsed t => Except.ok (decide (now - t < timeout))
  | LastSeenField.absent => Except.ok false
  | LastSeenField.badString => Except.ok false
  | LastSeenField.nonString => Except.error ()

/-- Loop body of `PeerManager.get_available_peers` (`peer_manager.py`,
lines 32–35) for one key: read the record and keep it only when it is
readable (`if peer`) and online; an uncaught `TypeError` raised inside
`_is_peer_online` propagates out of the loop body. -/
def gapStep (db : RedisStore) (now timeout : ℚ) (k : String) :
    Except Unit (Option PeerRecord) :=
  match get_key db now k with
  | some p =>
    match isPeerOnline now timeout p with
    | Except.ok b => Except.ok (if b then some p else none)
    | Except.error e => Except.error e
  | none => Except.ok none

/-- Scan loop of `get_available_peers` over the listed keys, in order:
kept records accumulate until either the scan finishes or an uncaught
exception from one loop body aborts the whole call. -/
def scanPeers (db : RedisStore) (now timeout : ℚ) : List String → Except Unit (List PeerRecord)
  | [] => Except.ok []
  | k :: ks =>
    match gapStep db now timeout k with
    | Except.error e => Except.error e
    | Except.ok none => scanPeers db now timeout ks
    | Except.ok (some p) =>
      match scanPeers db now timeout ks with
      | Except.error e => Except.error e
      | Except.ok rest => Except.ok (p :: rest)

/-- Online listing `PeerManager.get_available_peers` (`peer_manager.py`, lines 28–37):
scan every key, read each record, and keep it only when it is readable
and online.  The function has no exception handling of its own, so a
`TypeError` from `_is_peer_online` aborts the scan and escapes to the
caller (the `/api/v1/peer/list` endpoint then answers 500). -/
def get_available_peers (db : RedisStore) (now timeout : ℚ) : Except Unit (List PeerRecord) :=
  scanPeers db now timeout (get_all_keys db)

/-- An HTTPException raised inside a handler body: status code and detail. -/
structure HttpFailure where
  code : ℕ
  detail : String
  deriving DecidableEq, Repr

/-- Body of the `try` block of the `/api/v1/peer/heartbeat` endpoint
(`main.py`, lines 68–77): a missing `peer_id` raises a 400, a failed
`update_peer_heartbeat` raises a 404, success returns the new store. -/
def heartbeatBody (pidOpt : Option String) (db : RedisStore) (now timeout : ℚ) :
    Except HttpFailure RedisStore :=
  match pidOpt with
  | none => Except.error ⟨400, "Peer ID required"⟩
  | some pid =>
    match update_peer_heartbeat db now timeout pid with
    | (true, db2) => Except.ok db2
    | (false, _) => Except.error ⟨404, "Peer not found"⟩

/-- The `/api/v1/peer/heartbeat` endpoint (`main.py`, lines 63–81),
returning the response status and the resulting store.  The 401 check
runs outside the `try` block.  The blanket `except Exception` clause of
lines 79–81 also catches any `HTTPException` raised inside the `try`
block (the FastAPI `HTTPException` subclasses `Exception`), and re-raises
it as a 500 — so the intended 400/404 statuses never reach the client. -/
def peer_heartbeat (keyOk : Bool) (pidOpt : Option String) (db : RedisStore)
    (now timeout : ℚ) : ℕ × RedisStore :=
  if keyOk then
    match heartbeatBody pidOpt db now timeout with
    | Except.ok db2 => (200, db2)
    | Except.error _ => (500, db)
  else
    (401, db)

/-! ## Gateway proxy server (`src/gateway/app/proxy_server.py`) -/

/-- True when `pat` occurs as a contiguous run at the head of `l`. -/
def startsWithSeq : List Char → List Char → Bool
  | [], _ => true
  | _ :: _, [] => false
  | p :: ps, c :: cs => p == c && startsWithSeq ps cs

/-- True when `pat` occurs as a contiguous run anywhere in `l`; models
the Python substring test `sub in s`. -/
def containsSeq (pat : List Char) : List Char → Bool
  | [] => pat.isEmpty
  | c :: rest => startsWithSeq pat (c :: rest) || containsSeq pat rest

/-- HTTP methods routed to `handle_request` (`proxy_server.py`,
lines 31–35). -/
inductive HttpMethod where
  | get | post | put | delete | connect
  deriving DecidableEq, Repr

/-- An inbound request as seen by `handle_request`: the method and
`request.path_qs` (path plus query string). -/
structure ProxyRequest where
  method : HttpMethod
  path_qs : List Char
  deriving DecidableEq, Repr

/-- A `web.Response`: status code and body text. -/
structure ProxyResponse where
  status : ℕ
  body : List Char
  deriving DecidableEq, Repr

/-- The live `handle_request` of `proxy_server.py` (lines 89–121).
CONNECT requests get an empty 200 (both the empty-path branch and the
normal branch, lines 95–107); paths containing `time/1/current` or
`cup2key` get an empty 200 (lines 110–113); every other request gets a
200 with body `OK` (lines 115–117).  The handler never consults
`self.load_balancer`, which is passed here as `lb` and unused — the
forwarding path of the file is entirely commented out (lines 122–196). -/
def handle_request (_lb : HealthTable) (req : ProxyRequest) : ProxyResponse :=
  if req.method = HttpMethod.connect then
    { status := 200, body := [] }
  else if containsSeq (("time/1/current").data) req.path_qs
      || containsSeq (("cup2key").data) req.path_qs then
    { status := 200, body := [] }
  else
    { status := 200, body := ("OK").data }

/-- Feedback events that can reach one tracked `PeerHealth` record after
its creation: a `update_peer_performance` call with a response-time
sample and success flag, or a fired `_decrement_connection_count` timer. -/
inductive FeedbackStep where
  | outcome (sample : ℚ) (success : Bool)
  | decrTimer
  deriving DecidableEq, Repr

/-- Apply one feedback event to a record. -/
def applyFeedbackStep (h : PeerHealth) : FeedbackStep → PeerHealth
  | FeedbackStep.outcome s b => updateHealth h s b
  | FeedbackStep.decrTimer => decrementConnection h

/-- Concrete peer record used to exercise tie-breaking in selection. -/
def cexPeerA : PeerHealth :=
  { peer_id := "a", ip_address := "10.0.0.1", last_seen := 0, response_time := 100,
    active_connections := 0, max_connections := 50, success_rate := 0.95 }

/-- Identical health values to `cexPeerA`, listed second, so the two tie
on `totalScore`. -/
def cexPeerB : PeerHealth :=
  { peer_id := "b", ip_address := "10.0.0.2", last_seen := 0, response_time := 100,
    active_connections := 0, max_connections := 50, success_rate := 0.95 }

/-- Concrete peer whose success rate 0.5 fails the 0.7 selection gate. -/
def lowSuccessPeer : PeerHealth :=
  { peer_id := "w", ip_address := "10.0.0.3", last_seen := 0, response_time := 100,
    active_connections := 0, max_connections := 50, success_rate := 0.5 }

/-- Concrete directory record whose `last_seen` sits exactly at the
`peer_timeout` boundary for `now = 100`, `timeout = 60`. -/
def boundaryRecord : PeerRecord :=
  { id := "a", ip := "10.0.0.4", capabilities := [],
    last_seen := LastSeenField.parsed (100 - 60), status := "online" }

/-- Healthy record seen 10 s before `now = 100`. -/
def freshRecord : PeerRecord :=
  { id := "fresh", ip := "10.0.0.6", capabilities := [],
    last_seen := LastSeenField.parsed 90, status := "online" }

/-- Record whose stored `last_seen` string does not parse
(`ValueError`, caught). -/
def badStringRecord : PeerRecord :=
  { id := "bad", ip := "10.0.0.7", capabilities := [],
    last_seen := LastSeenField.badString, status := "online" }

/-- Record with no `last_seen` field at all (`KeyError`, caught). -/
def absentFieldRecord : PeerRecord :=
  { id := "absent", ip := "10.0.0.8", capabilities := [],
    last_seen := LastSeenField.absent, status := "online" }

/-- Record whose `last_seen` is present but not a string — a JSON
number — so `datetime.fromisoformat` raises `TypeError`, which
`_is_peer_online` does not catch. -/
def nonStringRecord : PeerRecord :=
  { id := "crash", ip := "10.0.0.9", capabilities := [],
    last_seen := LastSeenField.nonString, status := "online" }

/-- Store mixing a fresh record, one record of each caught error
flavour, and the exact-boundary record. -/
def mixedStore : RedisStore :=
  [("peer:fresh", { value := some freshRecord, expireAt := none }),
   ("peer:bad", { value := some badStringRecord, expireAt := none }),
   ("peer:absent", { value := some absentFieldRecord, expireAt := none }),
   ("peer:boundary", { value := some boundaryRecord, expireAt := none })]

/-- A store where the `TypeError`-raising record sits between a healthy
record and the boundary record. -/
def crashStore : RedisStore :=
  [("peer:fresh", { value := some freshRecord, expireAt := none }),
   ("peer:crash", { value := some nonStringRecord, expireAt := none }),
   ("peer:boundary", { value := some boundaryRecord, expireAt := none })]

/-! ## Properties -/

/-- Unfolding lemma for `pickFirstMax` over a cons cell. -/
theorem pickFirstMax_cons (b x : Scored) (l : List Scored) :
    pickFirstMax b (x :: l) =
      if b.1 < x.1 then pickFirstMax x l else pickFirstMax b l := by
  by_cases h : b.1 < x.1 <;> simp [pickFirstMax, h]

/-- Head of the insertion fold underlying `sortScoredDesc`: it is the
leftmost maximal-score element of the accumulated input. -/
theorem head_foldl_insertDesc (l : List Scored) :
    ∀ (b : Scored) (acc : List Scored),
      (l.foldl (fun a x => insertDesc x a) (b :: acc)).head? = some (pickFirstMax b l) := by
  induction l with
  | nil => intro b acc; simp [pickFirstMax]
  | cons x l ih =>
    intro b acc
    rw [List.foldl_cons, pickFirstMax_cons]
    by_cases h : b.1 < x.1
    · rw [if_pos h]
      have : insertDesc x (b :: acc) = x :: b :: acc := by simp [insertDesc, h]
      rw [this]; exact ih x (b :: acc)
    · rw [if_neg h]
      have : insertDesc x (b :: acc) = b :: insertDesc x acc := by simp [insertDesc, h]
      rw [this]; exact ih b (insertDesc x acc)

/-- Head of the stable descending sort of a non-empty list. -/
theorem sortScoredDesc_head (x : Scored) (xs : List Scored) :
    (sortScoredDesc (x :: xs)).head? = some (pickFirstMax x xs) := by
  simpa [sortScoredDesc, insertDesc] using head_foldl_insertDesc xs x []

/-- Maximality: `pickFirstMax` dominates the seed and every listed score. -/
theorem pickFirstMax_ge (l : List Scored) :
    ∀ b : Scored, b.1 ≤ (pickFirstMax b l).1 ∧ ∀ y ∈ l, y.1 ≤ (pickFirstMax b l).1 := by
  induction l with
  | nil => intro b; simp [pickFirstMax]
  | cons x l ih =>
    intro b
    rw [pickFirstMax_cons]
    by_cases h : b.1 < x.1
    · rw [if_pos h]
      obtain ⟨h1, h2⟩ := ih x
      refine ⟨le_of_lt (lt_of_lt_of_le h h1), ?_⟩
      intro y hy
      rcases List.mem_cons.mp hy with rfl | hy
      · exact h1
      · exact h2 y hy
    · rw [if_neg h]
      obtain ⟨h1, h2⟩ := ih b
      refine ⟨h1, ?_⟩
      intro y hy
      rcases List.mem_cons.mp hy with rfl | hy
      · exact le_trans (le_of_not_lt h) h1
      · exact h2 y hy

/-- Positional characterisation of `pickFirstMax`: the input splits around
the champion, with strictly smaller scores before it and no larger score
after it — so the champion is the first element attaining the maximum. -/
theorem pickFirstMax_decomp (l : List Scored) :
    ∀ b : Scored, ∃ l1 l2,
      b :: l = l1 ++ pickFirstMax b l :: l2 ∧
      (∀ y ∈ l1, y.1 < (pickFirstMax b l).1) ∧
      (∀ y ∈ l2, y.1 ≤ (pickFirstMax b l).1) := by
  induction l with
  | nil => intro b; exact ⟨[], [], by simp [pickFirstMax], by simp, by simp⟩
  | cons x l ih =>
    intro b
    rw [pickFirstMax_cons]
    by_cases h : b.1 < x.1
    · rw [if_pos h]
      obtain ⟨l1, l2, hd, h1, h2⟩ := ih x
      have hbx : b.1 < (pickFirstMax x l).1 := lt_of_lt_of_le h (pickFirstMax_ge l x).1
      refine ⟨b :: l1, l2, ?_, ?_, h2⟩
      · rw [List.cons_append, ← hd]
      · intro y hy
        rcases List.mem_cons.mp hy with rfl | hy
        · exact hbx
        · exact h1 y hy
    · rw [if_neg h]
      obtain ⟨l1, l2, hd, h1, h2⟩ := ih b
      have hxb : x.1 ≤ b.1 := le_of_not_lt h
      rcases l1 with _ | ⟨b0, l1t⟩
      · rw [List.nil_append] at hd
        injection hd with hb hl
        refine ⟨[], x :: l2, ?_, by simp, ?_⟩
        · rw [List.nil_append, ← hb, ← hl]
        · intro y hy
          rcases List.mem_cons.mp hy with rfl | hy
          · rw [← hb]; exact hxb
          · exact h2 y hy
      · rw [List.cons_append] at hd
        injection hd with hb0 hl
        subst hb0
        have hblt : b.1 < (pickFirstMax b l).1 := h1 b (by simp)
        refine ⟨b :: x :: l1t, l2, ?_, ?_, h2⟩
        · rw [List.cons_append, List.cons_append, ← hl]
        · intro y hy
          rcases List.mem_cons.mp hy with rfl | hy
          · exact hblt
          · rcases List.mem_cons.mp hy with rfl | hy
            · exact lt_of_le_of_lt hxb hblt
            · exact h1 y (by simp [hy])

/-- A decomposition of a mapped list pulls back to a decomposition of the
original list. -/
theorem map_decomp {α β : Type} (f : α → β) :
    ∀ (l : List α) (s1 s2 : List β) (y : β), l.map f = s1 ++ y :: s2 →
      ∃ t1 x t2, l = t1 ++ x :: t2 ∧ f x = y ∧ t1.map f = s1 ∧ t2.map f = s2 := by
  intro l
  induction l with
  | nil => intro s1 s2 y hm; cases s1 <;> simp at hm
  | cons a l ih =>
    intro s1 s2 y hm
    cases s1 with
    | nil =>
      rw [List.map_cons, List.nil_append] at hm
      injection hm with h1 h2
      exact ⟨[], a, l, by simp, h1, by simp, h2⟩
    | cons b s1t =>
      rw [List.map_cons, List.cons_append] at hm
      injection hm with h1 h2
      obtain ⟨t1, x, t2, hl, hfx, hm1, hm2⟩ := ih s1t s2 y h2
      exact ⟨a :: t1, x, t2, by simp [hl], hfx, by simp [h1, hm1], hm2⟩

/-- Characterisation of `get_best_peer` on a non-empty candidate set: it
returns the first candidate, in filter order, attaining the maximal
`totalScore`. -/
theorem get_best_peer_decomp (peers : List PeerHealth)
    (hne : peers.filter isEligible ≠ []) :
    ∃ p l1 l2, get_best_peer peers = some p ∧
      peers.filter isEligible = l1 ++ p :: l2 ∧
      (∀ q ∈ l1, totalScore q < totalScore p) ∧
      (∀ q ∈ l2, totalScore q ≤ totalScore p) := by
  obtain ⟨c, cs, hfilter⟩ := List.exists_cons_of_ne_nil hne
  have hbest : get_best_peer peers =
      some (pickFirstMax (totalScore c, c) (cs.map (fun p => (totalScore p, p)))).2 := by
    simp only [get_best_peer, hfilter, List.isEmpty_cons, List.map_cons, if_neg,
      Bool.false_eq_true, not_false_iff, ite_false, sortScoredDesc_head, Option.map_some']
  set f : PeerHealth → Scored := fun p => (totalScore p, p) with hf
  set r := pickFirstMax (f c) (cs.map f) with hrdef
  obtain ⟨s1, s2, hdec, hs1, hs2⟩ := pickFirstMax_decomp (cs.map f) (f c)
  have hmapdec : (c :: cs).map f = s1 ++ r :: s2 := by
    rw [List.map_cons]; exact hdec
  obtain ⟨t1, x, t2, hct, hfx, hm1, hm2⟩ := map_decomp f (c :: cs) s1 s2 r hmapdec
  have hx2 : r.2 = x := by rw [← hfx]
  have hxscore : r.1 = totalScore x := by rw [← hfx]
  refine ⟨x, t1, t2, ?_, ?_, ?_, ?_⟩
  · rw [hbest, hx2]
  · rw [hfilter, hct]
  · intro q hq
    have : f q ∈ s1 := hm1 ▸ List.mem_map_of_mem f hq
    have := hs1 (f q) this
    rw [hxscore] at this
    exact this
  · intro q hq
    have : f q ∈ s2 := hm2 ▸ List.mem_map_of_mem f hq
    have := hs2 (f q) this
    rw [hxscore] at this
    exact this

/-- Propositional reading of the Bool selection filter `isEligible`. -/
theorem eligible_iff (p : PeerHealth) :
    isEligible p = true ↔
      p.active_connections < p.max_connections ∧ (0.7 : ℚ) < p.success_rate := by
  simp [isEligible]

/-- Reading the key just written returns the written value. -/
theorem assocGet_put_self {α : Type} (k : String) (v : α) (t : List (String × α)) :
    assocGet k (assocPut k v t) = some v := by
  induction t with
  | nil => simp [assocPut, assocGet]
  | cons kv rest ih =>
    obtain ⟨k0, v0⟩ := kv
    by_cases h : k0 = k
    · simp [assocPut, assocGet, h]
    · simp [assocPut, assocGet, h, ih]

/-- Writing one key leaves reads of any other key unchanged. -/
theorem assocGet_put_ne {α : Type} (k k2 : String) (v : α) (t : List (String × α))
    (h : k ≠ k2) : assocGet k2 (assocPut k v t) = assocGet k2 t := by
  induction t with
  | nil => simp [assocPut, assocGet, h]
  | cons kv rest ih =>
    obtain ⟨k0, v0⟩ := kv
    by_cases h0 : k0 = k
    · have : k0 ≠ k2 := by rw [h0]; exact h
      simp [assocPut, assocGet, h0, h, this]
    · by_cases h2 : k0 = k2
      · subst h2
        simp [assocPut, assocGet, h0]
      · simp [assocPut, assocGet, h0, h2, ih]

/-- A poll step for one peer does not disturb entries of other peers. -/
theorem assocGet_pollStep_ne (now : ℚ) (t : HealthTable) (p : PollPeer) (pid : String)
    (h : p.id ≠ pid) : assocGet pid (pollStep now t p) = assocGet pid t := by
  unfold pollStep
  cases assocGet p.id t <;> simp [assocGet_put_ne _ _ _ _ h]

/-- A poll over peers not containing `pid` leaves the `pid` entry unchanged. -/
theorem foldl_pollStep_not_mem (now : ℚ) :
    ∀ (peers : List PollPeer) (t : HealthTable) (pid : String),
      pid ∉ peers.map PollPeer.id →
      assocGet pid (peers.foldl (pollStep now) t) = assocGet pid t := by
  intro peers
  induction peers with
  | nil => intro t pid _; rfl
  | cons q rest ih =>
    intro t pid hmem
    rw [List.map_cons, List.mem_cons] at hmem
    push_neg at hmem
    rw [List.foldl_cons, ih _ _ hmem.2]
    exact assocGet_pollStep_ne now t q pid (fun h => hmem.1 h.symm)

/-- Effect of the poll fold on the entry of a polled peer: seed it when
unseen, otherwise rewrite only `last_seen`. -/
theorem lookup_foldl_pollStep (now : ℚ) :
    ∀ (peers : List PollPeer) (t : HealthTable) (p : PollPeer),
      (peers.map PollPeer.id).Nodup → p ∈ peers →
      assocGet p.id (peers.foldl (pollStep now) t) =
        some (match assocGet p.id t with
              | none => seedHealth p.id p.ip now
              | some h => { h with last_seen := now }) := by
  intro peers
  induction peers with
  | nil => intro t p _ hp; exact absurd hp (List.not_mem_nil p)
  | cons q rest ih =>
    intro t p hnd hp
    rw [List.map_cons, List.nodup_cons] at hnd
    rw [List.foldl_cons]
    rcases List.mem_cons.mp hp with rfl | hp
    · rw [foldl_pollStep_not_mem now rest _ _ hnd.1]
      unfold pollStep
      cases hget : assocGet p.id t with
      | none => simp [hget, assocGet_put_self]
      | some h => simp [hget, assocGet_put_self]
    · have hne : q.id ≠ p.id := by
        intro h
        exact hnd.1 (h ▸ List.mem_map_of_mem PollPeer.id hp)
      rw [ih _ p hnd.2 hp, assocGet_pollStep_ne now t q p.id hne]

/-- An entry whose value survives the staleness filter is still found by a
lookup afterwards. -/
theorem assocGet_filter {α : Type} (pred : String × α → Bool) :
    ∀ (t : List (String × α)) (k : String) (v : α),
      assocGet k t = some v → pred (k, v) = true →
      assocGet k (t.filter pred) = some v := by
  intro t
  induction t with
  | nil => intro k v h _; simp [assocGet] at h
  | cons kv rest ih =>
    obtain ⟨k0, v0⟩ := kv
    intro k v hget hpred
    by_cases h : k0 = k
    · rw [assocGet, if_pos h] at hget
      obtain rfl : v0 = v := Option.some.injEq .. |>.mp hget
      subst h
      rw [List.filter_cons, if_pos hpred]
      simp [assocGet]
    · rw [assocGet, if_neg h] at hget
      rw [List.filter_cons]
      by_cases hp0 : pred (k0, v0) = true
      · rw [if_pos hp0, assocGet, if_neg h]
        exact ih k v hget hpred
      · rw [if_neg hp0]
        exact ih k v hget hpred

/-- Success-rate component of a performance update. -/
theorem updateHealth_success_rate (h : PeerHealth) (rt : ℚ) (b : Bool) :
    (updateHealth h rt b).success_rate =
      if b then min 1.0 (h.success_rate + 0.01) else max 0.0 (h.success_rate - 0.05) := rfl

/-- One performance update keeps the success rate within the unit interval. -/
theorem success_rate_step (h : PeerHealth) (rt : ℚ) (b : Bool)
    (h0 : 0 ≤ h.success_rate) (h1 : h.success_rate ≤ 1) :
    0 ≤ (updateHealth h rt b).success_rate ∧ (updateHealth h rt b).success_rate ≤ 1 := by
  rw [updateHealth_success_rate]
  cases b
  · rw [if_neg (by simp)]
    constructor
    · exact le_trans (by norm_num) (le_max_left (0.0 : ℚ) _)
    · exact max_le (by norm_num) (by linarith)
  · rw [if_pos rfl]
    constructor
    · exact le_min (by norm_num) (by linarith)
    · exact le_trans (min_le_left (1.0 : ℚ) _) (by norm_num)

/-- Any sequence of performance updates keeps the success rate within the
unit interval. -/
theorem success_rate_fold (updates : List (ℚ × Bool)) :
    ∀ h : PeerHealth, 0 ≤ h.success_rate → h.success_rate ≤ 1 →
      0 ≤ (updates.foldl (fun a u => updateHealth a u.1 u.2) h).success_rate ∧
      (updates.foldl (fun a u => updateHealth a u.1 u.2) h).success_rate ≤ 1 := by
  induction updates with
  | nil => intro h h0 h1; exact ⟨h0, h1⟩
  | cons u rest ih =>
    intro h h0 h1
    rw [List.foldl_cons]
    obtain ⟨h0s, h1s⟩ := success_rate_step h u.1 u.2 h0 h1
    exact ih _ h0s h1s

/-- Any sequence of feedback events with non-negative response-time samples
preserves strict positivity of `response_time` and never changes
`max_connections`. -/
theorem feedback_invariant (steps : List FeedbackStep) :
    ∀ h : PeerHealth,
      (∀ s b, FeedbackStep.outcome s b ∈ steps → 0 ≤ s) →
      0 < h.response_time →
      0 < (steps.foldl applyFeedbackStep h).response_time ∧
      (steps.foldl applyFeedbackStep h).max_connections = h.max_connections := by
  induction steps with
  | nil => intro h _ hrt; exact ⟨hrt, rfl⟩
  | cons st rest ih =>
    intro h hsamp hrt
    rw [List.foldl_cons]
    have hstep : 0 < (applyFeedbackStep h st).response_time ∧
        (applyFeedbackStep h st).max_connections = h.max_connections := by
      cases st with
      | outcome s b =>
        have hs : 0 ≤ s := hsamp s b (List.mem_cons_self _ _)
        unfold applyFeedbackStep updateHealth
        constructor
        · have h7 : (0 : ℚ) < 0.7 * h.response_time :=
            mul_pos (by norm_num) hrt
          have h3 : (0 : ℚ) ≤ 0.3 * s := mul_nonneg (by norm_num) hs
          linarith
        · rfl
      | decrTimer =>
        unfold applyFeedbackStep decrementConnection
        exact ⟨hrt, rfl⟩
    obtain ⟨hrt2, hmax2⟩ := hstep
    obtain ⟨ha, hb⟩ :=
      ih (applyFeedbackStep h st) (fun s b hm => hsamp s b (List.mem_cons_of_mem _ hm)) hrt2
    exact ⟨ha, hmax2 ▸ hb⟩

/-- C1: the claim fails on the code.  For an inbound non-CONNECT request the
live `handle_request` answers 200 with body `OK` even though the balancer
tracks no peers at all — `get_best_peer` is never consulted (the `lb`
argument is unused by the handler) and no 502 bad-gateway `no peers`
failure is produced.  The forwarding path described by the spec exists in
`proxy_server.py` only as commented-out code. -/
theorem c1_handler_succeeds_without_peer_selection :
    handle_request [] { method := HttpMethod.get, path_qs := ("/example").data } =
      { status := 200, body := ("OK").data } ∧
    get_best_peer [] = none ∧ (200 : ℕ) ≠ 502 :=
  ⟨rfl, rfl, by norm_num⟩

/-- C2: the claim fails on the code.  A heartbeat for a peer id with no
record makes the handler body raise a 404 `Peer not found`, but the
blanket `except Exception` of the endpoint catches that exception and
re-raises it as a 500, so the endpoint responds 500, not the claimed
404-equivalent.  The positive half holds: after registration at time 0
with `peer_timeout = 60`, a heartbeat at time 30 succeeds with 200 and
rewrites `last_seen` to 30 with a fresh expiry. -/
theorem c2_heartbeat_unknown_peer_yields_500 :
    peer_heartbeat true (some ("ghost")) [] 0 60 = (500, []) ∧
    heartbeatBody (some ("ghost")) [] 0 60 =
      Except.error { code := 404, detail := "Peer not found" } ∧
    (500 : ℕ) ≠ 404 ∧
    peer_heartbeat true (some ("p1"))
        ((register_peer [] 0 60
          { id := "p1", ip := "10.0.0.5", capabilities := [],
            last_seen := LastSeenField.parsed 0, status := "online" }).2) 30 60 =
      (200, [(peerKey ("p1"),
        { value := some { id := "p1", ip := "10.0.0.5", capabilities := [],
                          last_seen := LastSeenField.parsed 30, status := "online" },
          expireAt := some 150 })]) := by
  refine ⟨rfl, rfl, by norm_num, ?_⟩
  norm_num [peer_heartbeat, heartbeatBody, update_peer_heartbeat, get_peer, get_key,
    set_key, register_peer, assocPut, assocGet, entryLive, peerKey]

/-- C3 counterexample: two candidates with equal maximal `totalScore`;
selection returns the one encountered first, not the one encountered
last as the claim states. -/
theorem c3_tie_goes_to_first_counterexample :
    get_best_peer [cexPeerA, cexPeerB] = some cexPeerA ∧
    get_best_peer [cexPeerA, cexPeerB] ≠ some cexPeerB ∧
    cexPeerA ≠ cexPeerB ∧
    totalScore cexPeerA = totalScore cexPeerB := by
  have hmain : get_best_peer [cexPeerA, cexPeerB] = some cexPeerA := by
    norm_num [get_best_peer, isEligible, cexPeerA, cexPeerB, sortScoredDesc, insertDesc,
      List.filter, List.foldl, totalScore, loadFactor, performanceScore]
  have hne : cexPeerA ≠ cexPeerB := by
    intro h
    simp [cexPeerA, cexPeerB] at h
  refine ⟨hmain, ?_, hne, rfl⟩
  rw [hmain]
  intro h
  exact hne (Option.some.injEq .. |>.mp h)

/-- C3 (amended): for every non-empty candidate set, selection computes
`total_score = 0.3 × (1 − active/max) + 0.7 × ((1000/response_time) ×
success_rate)` for each candidate and returns a candidate with maximum
`total_score`; when several candidates tie on the maximal score, the one
encountered first in the comparison is returned (stable descending sort,
then take the head). -/
theorem c3_selection_max_first_tiebreak (peers : List PeerHealth)
    (hne : peers.filter isEligible ≠ []) :
    ∃ p l1 l2, get_best_peer peers = some p ∧
      peers.filter isEligible = l1 ++ p :: l2 ∧
      (∀ q ∈ l1, totalScore q < totalScore p) ∧
      (∀ q ∈ l2, totalScore q ≤ totalScore p) ∧
      totalScore p = 0.3 * (1 - (p.active_connections : ℚ) / (p.max_connections : ℚ)) +
        0.7 * ((1000 / p.response_time) * p.success_rate) := by
  obtain ⟨p, l1, l2, h1, h2, h3, h4⟩ := get_best_peer_decomp peers hne
  exact ⟨p, l1, l2, h1, h2, h3, h4, rfl⟩

/-- Witness for C3 at a concrete one-candidate input. -/
theorem c3_selection_witness :
    ([cexPeerA].filter isEligible ≠ []) ∧
    (∃ p l1 l2, get_best_peer [cexPeerA] = some p ∧
      [cexPeerA].filter isEligible = l1 ++ p :: l2 ∧
      (∀ q ∈ l1, totalScore q < totalScore p) ∧
      (∀ q ∈ l2, totalScore q ≤ totalScore p) ∧
      totalScore p = 0.3 * (1 - (p.active_connections : ℚ) / (p.max_connections : ℚ)) +
        0.7 * ((1000 / p.response_time) * p.success_rate)) :=
  ⟨by norm_num [List.filter, isEligible, cexPeerA],
   c3_selection_max_first_tiebreak [cexPeerA]
     (by norm_num [List.filter, isEligible, cexPeerA])⟩

/-- C4: selection considers exactly the tracked peers with
`active_connections < max_connections` and `success_rate > 0.7`; it
returns nothing precisely when every tracked peer violates one of the
two conditions, and any returned peer is a tracked peer satisfying both. -/
theorem c4_filter_exactness (peers : List PeerHealth) :
    (get_best_peer peers = none ↔
      ∀ p ∈ peers, ¬(p.active_connections < p.max_connections ∧ (0.7 : ℚ) < p.success_rate)) ∧
    (∀ p, get_best_peer peers = some p →
      p ∈ peers ∧ p.active_connections < p.max_connections ∧ (0.7 : ℚ) < p.success_rate) := by
  constructor
  · constructor
    · intro hnone
      by_contra hex
      push_neg at hex
      obtain ⟨p, hp, hcond⟩ := hex
      have hmem : p ∈ peers.filter isEligible :=
        List.mem_filter.mpr ⟨hp, (eligible_iff p).mpr hcond⟩
      have hne : peers.filter isEligible ≠ [] := by
        intro h; rw [h] at hmem; exact List.not_mem_nil _ hmem
      obtain ⟨q, l1, l2, hq, _, _, _⟩ := get_best_peer_decomp peers hne
      rw [hnone] at hq; exact Option.noConfusion hq
    · intro hall
      have hnil : peers.filter isEligible = [] := by
        apply List.filter_eq_nil_iff.mpr
        intro p hp htrue
        exact hall p hp ((eligible_iff p).mp htrue)
      simp [get_best_peer, hnil]
  · intro p hp
    by_cases hne : peers.filter isEligible = []
    · simp [get_best_peer, hne] at hp
    · obtain ⟨q, l1, l2, hq, hdec, _, _⟩ := get_best_peer_decomp peers hne
      rw [hp] at hq
      obtain rfl : p = q := Option.some.injEq .. |>.mp hq
      have hmem : p ∈ peers.filter isEligible := by
        rw [hdec]; exact List.mem_append_right _ (List.mem_cons_self _ _)
      obtain ⟨hin, helig⟩ := List.mem_filter.mp hmem
      exact ⟨hin, (eligible_iff p).mp helig⟩

/-- Witness for C4: a peer with success rate 0.5 is excluded, yielding an
empty selection. -/
theorem c4_filter_witness :
    get_best_peer [lowSuccessPeer] = none :=
  (c4_filter_exactness [lowSuccessPeer]).1.mpr (by
    intro p hp
    rw [List.mem_singleton] at hp
    subst hp
    rintro ⟨_, hc⟩
    norm_num [lowSuccessPeer] at hc)

/-- C5 counterexample: five consecutive failed fetches that fail with a
non-200 response make exactly 5 attempts but wait no delay at all
between attempts, refuting the claimed linear backoff for every failing
cycle. -/
theorem c5_http_failures_no_backoff_counterexample :
    ¬ (∀ (oc : ℕ → FetchOutcome) (now : ℚ) (t : HealthTable),
        (∀ i, i < 5 → ∀ ps, oc i ≠ FetchOutcome.ok ps) →
        (fetch_peer_health oc now t).attempts = 5 ∧
        (fetch_peer_health oc now t).delays = [2, 4, 6, 8]) := by
  intro hclaim
  have := hclaim (fun _ => FetchOutcome.httpStatus 500) 0 []
    (by intro i hi ps; simp)
  have hd := this.2
  norm_num [fetch_peer_health, fetchAux, maxRetries, retryDelay] at hd
  exact (List.cons_ne_nil 2 [4, 6, 8]) hd

/-- C5 (amended): when every fetch attempt fails by raising an exception,
the cycle makes exactly 5 attempts and sleeps `retry_delay × attempt
number` seconds — 2, 4, 6, 8, strictly increasing — before each retry,
then gives up; a non-200 response instead retries immediately with no
delay. -/
theorem c5_exception_retry_backoff (oc : ℕ → FetchOutcome) (now : ℚ) (t : HealthTable)
    (hexc : ∀ i, i < 5 → oc i = FetchOutcome.exc) :
    fetch_peer_health oc now t = ⟨t, [2, 4, 6, 8], 5⟩ ∧
    List.Chain' (· < ·) (fetch_peer_health oc now t).delays := by
  have h0 := hexc 0 (by norm_num)
  have h1 := hexc 1 (by norm_num)
  have h2 := hexc 2 (by norm_num)
  have h3 := hexc 3 (by norm_num)
  have h4 := hexc 4 (by norm_num)
  have hmain : fetch_peer_health oc now t = ⟨t, [2, 4, 6, 8], 5⟩ := by
    simp [fetch_peer_health, fetchAux, maxRetries, retryDelay, h0, h1, h2, h3, h4]
  refine ⟨hmain, ?_⟩
  rw [hmain]
  norm_num [List.chain'_cons]

/-- Witness for C5 with the all-exception outcome trace. -/
theorem c5_retry_witness :
    (∀ i, i < 5 → (fun _ => FetchOutcome.exc) i = FetchOutcome.exc) ∧
    (fetch_peer_health (fun _ => FetchOutcome.exc) 0 [] =
        { table := [], delays := [2, 4, 6, 8], attempts := 5 } ∧
      List.Chain' (· < ·) (fetch_peer_health (fun _ => FetchOutcome.exc) 0 []).delays) :=
  ⟨fun _ _ => rfl, c5_exception_retry_backoff (fun _ => FetchOutcome.exc) 0 [] (fun _ _ => rfl)⟩

/-- C6: the claim fails on the code.  The strict-window half behaves as
claimed on this store: at `now = 100`, `timeout = 60` the scan lists only
the record seen 10 s ago, skipping the `ValueError` record, the
`KeyError` record and the record seen exactly `peer_timeout` ago (strict
`<`).  The never-aborts half is false: the `except` clause of
`_is_peer_online` catches only `ValueError` and `KeyError`, so a single
record whose `last_seen` is present but not a string (a JSON number)
raises an uncaught `TypeError` and the whole scan aborts with an error,
listing nothing — not even the healthy peer read before it. -/
theorem c6_scan_crash_on_nonstring_last_seen :
    get_available_peers mixedStore 100 60 = Except.ok [freshRecord] ∧
    isPeerOnline 100 60 boundaryRecord = Except.ok false ∧
    isPeerOnline 100 60 badStringRecord = Except.ok false ∧
    isPeerOnline 100 60 absentFieldRecord = Except.ok false ∧
    get_available_peers crashStore 100 60 = Except.error () := by
  have honf : isPeerOnline 100 60 freshRecord = Except.ok true := by
    norm_num [isPeerOnline, freshRecord]
  have honb : isPeerOnline 100 60 boundaryRecord = Except.ok false := by
    norm_num [isPeerOnline, boundaryRecord]
  have h1 : gapStep mixedStore 100 60 ("peer:fresh") = Except.ok (some freshRecord) := by
    have hg : get_key mixedStore 100 ("peer:fresh") = some freshRecord := rfl
    norm_num [gapStep, hg, honf]
  have h2 : gapStep mixedStore 100 60 ("peer:bad") = Except.ok none := rfl
  have h3 : gapStep mixedStore 100 60 ("peer:absent") = Except.ok none := rfl
  have h4 : gapStep mixedStore 100 60 ("peer:boundary") = Except.ok none := by
    have hg : get_key mixedStore 100 ("peer:boundary") = some boundaryRecord := rfl
    norm_num [gapStep, hg, honb]
  have hc1 : gapStep crashStore 100 60 ("peer:fresh") = Except.ok (some freshRecord) := by
    have hg : get_key crashStore 100 ("peer:fresh") = some freshRecord := rfl
    norm_num [gapStep, hg, honf]
  have hc2 : gapStep crashStore 100 60 ("peer:crash") = Except.error () := rfl
  have hkm : get_all_keys mixedStore =
      ["peer:fresh", "peer:bad", "peer:absent", "peer:boundary"] := rfl
  have hkc : get_all_keys crashStore = ["peer:fresh", "peer:crash", "peer:boundary"] := rfl
  refine ⟨?_, honb, rfl, rfl, ?_⟩
  · norm_num [get_available_peers, hkm, scanPeers, h1, h2, h3, h4]
  · norm_num [get_available_peers, hkc, scanPeers, hc1, hc2]

/-- C7: a successful health poll creates every unseen returned peer with
exactly the seed values `response_time = 100`, `success_rate = 0.95`,
`active_connections = 0`, `max_connections = 50`, and for an already
tracked returned peer rewrites only `last_seen`, leaving the four
performance fields unchanged. -/
theorem c7_poll_seed_and_touch (t : HealthTable) (now : ℚ) (peers : List PollPeer)
    (p : PollPeer) (hnd : (peers.map PollPeer.id).Nodup) (hp : p ∈ peers) :
    (assocGet p.id t = none →
      assocGet p.id (applyPoll t now peers) = some (seedHealth p.id p.ip now)) ∧
    (∀ h, assocGet p.id t = some h →
      assocGet p.id (applyPoll t now peers) = some { h with last_seen := now }) ∧
    (seedHealth p.id p.ip now).response_time = 100 ∧
    (seedHealth p.id p.ip now).success_rate = 0.95 ∧
    (seedHealth p.id p.ip now).active_connections = 0 ∧
    (seedHealth p.id p.ip now).max_connections = 50 := by
  have hfold := lookup_foldl_pollStep now peers t p hnd hp
  refine ⟨?_, ?_, rfl, rfl, rfl, rfl⟩
  · intro hnone
    rw [hnone] at hfold
    unfold applyPoll
    refine assocGet_filter _ _ _ _ hfold ?_
    simp [seedHealth]
  · intro h hsome
    rw [hsome] at hfold
    unfold applyPoll
    refine assocGet_filter _ _ _ _ hfold ?_
    simp

/-- Witness for C7 on a concrete table and poll. -/
theorem c7_poll_witness :
    ((([⟨"a", "ip1"⟩, ⟨"b", "ip2"⟩] : List PollPeer).map PollPeer.id).Nodup ∧
      (⟨"b", "ip2"⟩ : PollPeer) ∈ ([⟨"a", "ip1"⟩, ⟨"b", "ip2"⟩] : List PollPeer)) ∧
    (assocGet ("b") ([("a", seedHealth ("a") ("ip0") 0)] : HealthTable) = none →
      assocGet ("b")
          (applyPoll [("a", seedHealth ("a") ("ip0") 0)] 7 [⟨"a", "ip1"⟩, ⟨"b", "ip2"⟩]) =
        some (seedHealth ("b") ("ip2") 7)) := by
  have hnd : (([⟨"a", "ip1"⟩, ⟨"b", "ip2"⟩] : List PollPeer).map PollPeer.id).Nodup := by
    simp
  have hp : (⟨"b", "ip2"⟩ : PollPeer) ∈ ([⟨"a", "ip1"⟩, ⟨"b", "ip2"⟩] : List PollPeer) := by
    simp
  exact ⟨⟨hnd, hp⟩,
    (c7_poll_seed_and_touch [("a", seedHealth ("a") ("ip0") 0)] 7
      [⟨"a", "ip1"⟩, ⟨"b", "ip2"⟩] ⟨"b", "ip2"⟩ hnd hp).1⟩

/-- C8: starting from any success rate in `[0, 1]`, every finite sequence of
performance-feedback updates (`+0.01` capped at 1 on success, `−0.05`
floored at 0 on failure) keeps the success rate in `[0, 1]`. -/
theorem c8_success_rate_bounds (updates : List (ℚ × Bool)) (h : PeerHealth)
    (h0 : 0 ≤ h.success_rate) (h1 : h.success_rate ≤ 1) :
    0 ≤ (updates.foldl (fun a u => updateHealth a u.1 u.2) h).success_rate ∧
    (updates.foldl (fun a u => updateHealth a u.1 u.2) h).success_rate ≤ 1 :=
  success_rate_fold updates h h0 h1

/-- Witness for C8 from the seed record through three updates. -/
theorem c8_success_rate_witness :
    (0 ≤ (seedHealth ("p") ("ip") 0).success_rate ∧
      (seedHealth ("p") ("ip") 0).success_rate ≤ 1) ∧
    (0 ≤ (([(50, true), (200, false), (10, false)] : List (ℚ × Bool)).foldl
        (fun a u => updateHealth a u.1 u.2) (seedHealth ("p") ("ip") 0)).success_rate ∧
      (([(50, true), (200, false), (10, false)] : List (ℚ × Bool)).foldl
        (fun a u => updateHealth a u.1 u.2) (seedHealth ("p") ("ip") 0)).success_rate ≤ 1) :=
  ⟨⟨by norm_num [seedHealth], by norm_num [seedHealth]⟩,
   c8_success_rate_bounds [(50, true), (200, false), (10, false)] (seedHealth ("p") ("ip") 0)
     (by norm_num [seedHealth]) (by norm_num [seedHealth])⟩

/-- C9: a performance update sets the new response time to exactly
`0.7 × old + 0.3 × sample`; in particular, from the seed value 100 with
sample 50 the new response time is 85. -/
theorem c9_ema_exact :
    (∀ (h : PeerHealth) (rt : ℚ) (b : Bool),
      (updateHealth h rt b).response_time = 0.7 * h.response_time + 0.3 * rt) ∧
    (updateHealth (seedHealth ("p") ("ip") 0) 50 true).response_time = 85 := by
  constructor
  · intro h rt b; rfl
  · norm_num [updateHealth, seedHealth]

/-- C10: every record reachable from the seed values by feedback updates
with non-negative response-time samples and deferred decrements keeps
`response_time` strictly positive and `max_connections = 50`, so the
divisions `1000 / response_time` and `active_connections /
max_connections` in scoring never divide by zero. -/
theorem c10_scoring_denominators_safe (steps : List FeedbackStep) (pid ip : String)
    (t0 : ℚ) (hsamp : ∀ s b, FeedbackStep.outcome s b ∈ steps → 0 ≤ s) :
    0 < (steps.foldl applyFeedbackStep (seedHealth pid ip t0)).response_time ∧
    (steps.foldl applyFeedbackStep (seedHealth pid ip t0)).response_time ≠ 0 ∧
    (steps.foldl applyFeedbackStep (seedHealth pid ip t0)).max_connections = 50 ∧
    ((steps.foldl applyFeedbackStep (seedHealth pid ip t0)).max_connections : ℚ) ≠ 0 := by
  obtain ⟨h1, h2⟩ :=
    feedback_invariant steps (seedHealth pid ip t0) hsamp (by norm_num [seedHealth])
  have hmax : (steps.foldl applyFeedbackStep (seedHealth pid ip t0)).max_connections = 50 := by
    rw [h2]; rfl
  refine ⟨h1, ne_of_gt h1, hmax, ?_⟩
  rw [hmax]; norm_num

/-- Witness for C10 on a concrete feedback sequence. -/
theorem c10_denominators_witness :
    (∀ s b, FeedbackStep.outcome s b ∈
        ([FeedbackStep.outcome 50 true, FeedbackStep.decrTimer] : List FeedbackStep) → 0 ≤ s) ∧
    (0 < (([FeedbackStep.outcome 50 true, FeedbackStep.decrTimer] : List FeedbackStep).foldl
        applyFeedbackStep (seedHealth ("p") ("ip") 0)).response_time ∧
      (([FeedbackStep.outcome 50 true, FeedbackStep.decrTimer] : List FeedbackStep).foldl
        applyFeedbackStep (seedHealth ("p") ("ip") 0)).response_time ≠ 0 ∧
      (([FeedbackStep.outcome 50 true, FeedbackStep.decrTimer] : List FeedbackStep).foldl
        applyFeedbackStep (seedHealth ("p") ("ip") 0)).max_connections = 50 ∧
      ((([FeedbackStep.outcome 50 true, FeedbackStep.decrTimer] : List FeedbackStep).foldl
        applyFeedbackStep (seedHealth ("p") ("ip") 0)).max_connections : ℚ) ≠ 0) := by
  have hsamp : ∀ s b, FeedbackStep.outcome s b ∈
      ([FeedbackStep.outcome 50 true, FeedbackStep.decrTimer] : List FeedbackStep) → 0 ≤ s := by
    intro s b hm
    simp only [List.mem_cons, List.not_mem_nil, or_false] at hm
    rcases hm with hm | hm
    · obtain ⟨rfl, rfl⟩ := FeedbackStep.outcome.injEq .. |>.mp hm
      norm_num
    · exact absurd hm (by simp)
  exact ⟨hsamp, c10_scoring_denominators_safe _ ("p") ("ip") 0 hsamp⟩

end Mirage
